import Mathlib

/-!
Verification development for the protozero PBF (protocol buffers wire format)
reader and writer (src/include/protozero/pbf_reader.hpp,
src/include/protozero/pbf_writer.hpp, src/include/protozero/types.hpp).

Bytes are modelled as natural numbers below 256, buffers as lists of bytes.
The reader is a cursor over the remaining bytes together with the tag and
wire type of the current field; reader operations return the C++ result
(success value or thrown exception) together with the state of the object at
the moment the operation returns or the exception propagates.  The writer is
the target buffer together with the two submessage anchors m_rollback_pos
and m_pos.  Machine integer conversions (uint32_t, pbf_length_type,
pbf_tag_type truncations) are explicit via percent 2 to the power 32.
Assertions guarded by protozero_assert are compiled out in release builds
and are not modelled.
-/

namespace Protozero

/-- Error kinds thrown by the library (exception.hpp): end_of_buffer_exception,
varint_too_long_exception, unknown_pbf_wire_type_exception. -/
inductive PbfError where
  | endOfBuffer
  | varintTooLong
  | unknownWireType
deriving DecidableEq

/-- Modelled from the spec: varint.hpp is not under src/.  Spec section 4.1,
decode_varint: each byte contributes its low 7 bits in little-endian order,
iteration stops at the first byte with high bit clear, fails with
end_of_buffer when the input ends before a terminator and with
varint_too_long when a 10th continuation byte is seen; on success returns the
accumulated value modulo 2 to the power 64 together with the remaining input.
The shift argument is 7 times the number of bytes already consumed; the 10th
byte is read at shift 63. -/
def decodeVarintLoop : List Nat → Nat → Nat → Except PbfError (Nat × List Nat)
  | [], _, _ => .error .endOfBuffer
  | b :: rest, shift, acc =>
    if b < 128 then
      .ok ((acc + b * 2 ^ shift) % 2 ^ 64, rest)
    else if shift = 63 then
      .error .varintTooLong
    else
      decodeVarintLoop rest (shift + 7) (acc + b % 128 * 2 ^ shift)

/-- Modelled from the spec: varint.hpp is not under src/.  Spec section 4.1,
decode_varint(cursor, end): reads up to 10 bytes starting at the cursor.  On
failure the cursor is unchanged (modelled here by returning no new input
list; reader operations keep their old state on error). -/
def decode_varint (bytes : List Nat) : Except PbfError (Nat × List Nat) :=
  decodeVarintLoop bytes 0 0

/-- Modelled from the spec: varint.hpp is not under src/.  Spec section 4.1,
encode_varint / write_varint: repeatedly take the low 7 bits, OR in the high
bit if more non-zero bits remain, append, shift right 7; stop after a byte
whose top bit is clear. -/
def write_varint (v : Nat) : List Nat :=
  if v < 128 then [v]
  else (v % 128 + 128) :: write_varint (v / 128)
termination_by v
decreasing_by
  simp_wf
  omega

/-- Two-complement unsigned 64-bit representation of an integer. -/
def toUInt64n (i : Int) : Nat := (i % (2 ^ 64 : Int)).toNat

/-- Signed interpretation of an unsigned 64-bit value. -/
def toInt64 (x : Nat) : Int :=
  if x < 2 ^ 63 then (x : Int) else (x : Int) - 2 ^ 64

/-- Signed interpretation of an unsigned 32-bit value (int32_t conversion,
two-complement truncation). -/
def toInt32 (x : Int) : Int :=
  if x % 2 ^ 32 < 2 ^ 31 then x % 2 ^ 32 else x % 2 ^ 32 - 2 ^ 32

/-- Modelled from the spec: varint.hpp is not under src/.  Spec section 4.1,
encode_zigzag64(i64) = (i64 as u64) shifted left by one XOR (i64 shifted
right arithmetically by 63, as u64).  The arithmetic right shift by 63 of a
64-bit signed value is floor division by 2 to the power 63. -/
def encode_zigzag64 (n : Int) : Nat :=
  (toUInt64n (n * 2)) ^^^ (toUInt64n (Int.fdiv n (2 ^ 63)))

/-- Modelled from the spec: varint.hpp is not under src/.  Spec section 4.1,
decode_zigzag64(u64) = (u shifted right by one) XOR minus (u AND 1),
interpreted as i64.  Minus (u AND 1) in u64 arithmetic is 0 when u is even
and all ones when u is odd. -/
def decode_zigzag64 (u : Nat) : Int :=
  toInt64 ((u / 2) ^^^ ((2 ^ 64 - (u &&& 1)) % 2 ^ 64))

/-! ## Reader state and operations (src/include/protozero/pbf_reader.hpp) -/

/-- The observable state of a pbf_reader: the bytes between m_data (the
cursor) and m_end, the current wire type m_wire_type (as its numeric value,
99 for unknown) and the current tag m_tag. -/
structure PbfReader where
  data : List Nat
  wire : Nat
  tag : Nat
deriving DecidableEq

/-- pbf_reader::skip_bytes(len): throws end_of_buffer_exception when fewer
than len bytes remain, otherwise advances the cursor by len bytes (release
build: the debug-only tag reset is compiled out). -/
def skip_bytes (len : Nat) (r : PbfReader) : Except PbfError Unit × PbfReader :=
  if r.data.length < len then (.error .endOfBuffer, r)
  else (.ok (), { r with data := r.data.drop len })

/-- pbf_reader::get_scalar for varint-tagged types: decode_varint at the
cursor; the 64-bit result is truncated by the caller.  On decode failure the
cursor is unchanged. -/
def get_varint64 (r : PbfReader) : Except PbfError Nat × PbfReader :=
  match decode_varint r.data with
  | .error e => (.error e, r)
  | .ok (v, rest) => (.ok v, { r with data := rest })

/-- pbf_reader::get_scalar for svarint-tagged types (sint32/sint64):
decode_varint then decode_zigzag64. -/
def get_svarint (r : PbfReader) : Except PbfError Int × PbfReader :=
  match decode_varint r.data with
  | .error e => (.error e, r)
  | .ok (v, rest) => (.ok (decode_zigzag64 v), { r with data := rest })

/-- pbf_reader::get_scalar for bool (get_bool): skip_bytes(1) and report
whether the single consumed byte is non-zero (release build: the debug-only
single-byte assertion is compiled out). -/
def get_bool (r : PbfReader) : Except PbfError Bool × PbfReader :=
  match r.data with
  | [] => (.error .endOfBuffer, r)
  | b :: rest => (.ok (b != 0), { r with data := rest })

/-- Little-endian value of a byte list (detail::copy_or_byteswap loading a
fixed-width integer on a little-endian host). -/
def le_value : List Nat → Nat
  | [] => 0
  | b :: rest => b + 256 * le_value rest

/-- pbf_reader::get_scalar for fixed-tagged types of the given byte width:
skip_bytes(width) then load the consumed bytes little-endian. -/
def get_fixed (width : Nat) (r : PbfReader) : Except PbfError Nat × PbfReader :=
  if r.data.length < width then (.error .endOfBuffer, r)
  else (.ok (le_value (r.data.take width)), { r with data := r.data.drop width })

/-- pbf_reader::get_scalar for length-delimited types (get_view, get_data):
get_length (a varint truncated to pbf_length_type) advances the cursor past
the length varint, then skip_bytes(len) advances past the payload; the
returned view is the payload bytes.  When skip_bytes fails the cursor stays
advanced past the length varint. -/
def get_view (r : PbfReader) : Except PbfError (List Nat) × PbfReader :=
  match decode_varint r.data with
  | .error e => (.error e, r)
  | .ok (v, rest) =>
    let len := v % 2 ^ 32
    if rest.length < len then (.error .endOfBuffer, { r with data := rest })
    else (.ok (rest.take len), { r with data := rest.drop len })

/-- pbf_reader::next(): returns false at the end of the buffer; otherwise
decodes the field header varint, sets m_tag to the header shifted right by 3
(truncated to pbf_tag_type) and m_wire_type to the low 3 bits, and throws
unknown_pbf_wire_type_exception unless the wire type is 0, 1, 2 or 5. -/
def next (r : PbfReader) : Except PbfError Bool × PbfReader :=
  if r.data = [] then (.ok false, r)
  else
    match decode_varint r.data with
    | .error e => (.error e, r)
    | .ok (value, rest) =>
      let tg := (value >>> 3) % 2 ^ 32
      let wt := value &&& 7
      if wt = 0 ∨ wt = 1 ∨ wt = 2 ∨ wt = 5 then
        (.ok true, { data := rest, wire := wt, tag := tg })
      else
        (.error .unknownWireType, { data := rest, wire := wt, tag := tg })

/-- pbf_reader::skip(): consumes the current field according to its wire
type; varint payloads are decoded and discarded, fixed64 and fixed32
payloads skip 8 and 4 bytes, length-delimited payloads skip their decoded
length (release build: the unreachable default branch falls through). -/
def skip (r : PbfReader) : Except PbfError Unit × PbfReader :=
  if r.wire = 0 then
    match decode_varint r.data with
    | .error e => (.error e, r)
    | .ok (_, rest) => (.ok (), { r with data := rest })
  else if r.wire = 1 then skip_bytes 8 r
  else if r.wire = 2 then
    match decode_varint r.data with
    | .error e => (.error e, r)
    | .ok (v, rest) => skip_bytes (v % 2 ^ 32) { r with data := rest }
  else if r.wire = 5 then skip_bytes 4 r
  else (.ok (), r)

/-! ## Writer state and operations (src/include/protozero/pbf_writer.hpp) -/

/-- The state of a pbf_writer relevant to the submessage protocol: the bytes
of the target buffer, m_rollback_pos and m_pos.  A child writer shares the
buffer; the anchors of the writer on which open_submessage was called are the
ones modelled here. -/
structure PbfWriter where
  data : List Nat
  rollback_pos : Nat
  pos : Nat
deriving DecidableEq

/-- pbf_writer::reserve_bytes = sizeof(pbf_length_type) * 8 / 7 + 1, with
pbf_length_type = uint32_t (types.hpp), so sizeof is 4. -/
def reserve_bytes : Nat := 4 * 8 / 7 + 1

/-- pbf_writer::size_is_known = std::numeric_limits of size_t, max(): the
sentinel stored in m_rollback_pos when the submessage length was already
written. -/
def size_is_known : Nat := 2 ^ 64 - 1

/-- The bytes appended by pbf_writer::add_field(tag, type): the varint of
the uint32 field header (tag shifted left by 3, truncated to uint32, ORed
with the wire type). -/
def add_field_bytes (tag wt : Nat) : List Nat :=
  write_varint (((tag <<< 3) % 2 ^ 32) ||| wt)

/-- Appending raw bytes to the shared buffer (the effect of the child
writer, or of add_varint / add_fixed, on the buffer). -/
def append_bytes (w : PbfWriter) (bs : List Nat) : PbfWriter :=
  { w with data := w.data ++ bs }

/-- std::string::resize(n): truncate to n bytes, padding with zero bytes if
n exceeds the current size. -/
def resize_to (l : List Nat) (n : Nat) : List Nat :=
  l.take n ++ List.replicate (n - l.length) 0

/-- pbf_writer::open_submessage(tag, size): with size 0, record the rollback
anchor, append the length-delimited field header and reserve_bytes zero
bytes as the length placeholder; with non-zero size, set the sentinel and
append the header followed by the length varint (size truncated to
pbf_length_type).  In both cases m_pos becomes the new buffer size. -/
def open_submessage (w : PbfWriter) (tag size : Nat) : PbfWriter :=
  if size = 0 then
    let d := w.data ++ add_field_bytes tag 2 ++ List.replicate reserve_bytes 0
    { data := d, rollback_pos := w.data.length, pos := d.length }
  else
    let d := w.data ++ add_field_bytes tag 2 ++ write_varint (size % 2 ^ 32)
    { data := d, rollback_pos := size_is_known, pos := d.length }

/-- pbf_writer::rollback_submessage(): resize the buffer to m_rollback_pos
and clear m_pos. -/
def rollback_submessage (w : PbfWriter) : PbfWriter :=
  { w with data := resize_to w.data w.rollback_pos, pos := 0 }

/-- pbf_writer::commit_submessage(): compute the payload length (buffer size
minus m_pos, truncated to pbf_length_type), write its varint over the start
of the placeholder at m_pos - reserve_bytes, erase the unused placeholder
bytes between the end of the varint and m_pos, and clear m_pos. -/
def commit_submessage (w : PbfWriter) : PbfWriter :=
  let length := (w.data.length - w.pos) % 2 ^ 32
  let v := write_varint length
  let start := w.pos - reserve_bytes
  let d1 := w.data.take start ++ v ++ w.data.drop (start + v.length)
  let d2 := d1.take (start + v.length) ++ d1.drop w.pos
  { w with data := d2, pos := 0 }

/-- pbf_writer::close_submessage(): a no-op when no submessage is open or
the size was already written; otherwise rollback when no payload byte was
appended after m_pos and commit otherwise. -/
def close_submessage (w : PbfWriter) : PbfWriter :=
  if w.pos = 0 ∨ w.rollback_pos = size_is_known then w
  else if w.data.length - w.pos = 0 then rollback_submessage w
  else commit_submessage w

/-- pbf_writer::add_length_varint(tag, length): the field header followed by
the varint of the pbf_length_type length. -/
def add_length_varint (w : PbfWriter) (tag len : Nat) : PbfWriter :=
  append_bytes w (add_field_bytes tag 2 ++ write_varint len)

/-- pbf_writer::add(tag, first, last) dispatched to the non-fixed-length
add_packed_impl: nothing at all is appended for an empty range; otherwise a
submessage of unknown size is opened, every element encoding is appended,
and the submessage is closed.  The per-element encoding (write_varint of the
value, of its zigzag, or of the bool byte) is the parameter enc. -/
def add_packed_growing (w : PbfWriter) (tag : Nat) (enc : Nat → List Nat)
    (elems : List Nat) : PbfWriter :=
  if elems = [] then w
  else close_submessage
    (elems.foldl (fun b e => append_bytes b (enc e)) (open_submessage w tag 0))

/-- pbf_writer::add(tag, first, last) dispatched to the fixed-length
add_packed_impl (fixed-width elements, forward iterator): nothing is
appended for an empty range; otherwise the total length is computed up front
as the element width times the element count (truncated to pbf_length_type),
the header and length varint are appended, then every element encoding. -/
def add_packed_fixed (w : PbfWriter) (tag width : Nat) (enc : Nat → List Nat)
    (elems : List Nat) : PbfWriter :=
  if elems = [] then w
  else
    elems.foldl (fun b e => append_bytes b (enc e))
      (add_length_varint w tag ((width * elems.length) % 2 ^ 32))

/-- The known-size submessage path: child writer constructed with the exact
payload size, payload appended, submessage closed. -/
def knownPath (w : PbfWriter) (tag : Nat) (p : List Nat) : PbfWriter :=
  close_submessage (append_bytes (open_submessage w tag p.length) p)

/-- The unknown-size submessage path: child writer constructed with size 0,
payload appended, submessage closed (placeholder patched or rolled back). -/
def unknownPath (w : PbfWriter) (tag : Nat) (p : List Nat) : PbfWriter :=
  close_submessage (append_bytes (open_submessage w tag 0) p)

instance {e a : Type} [DecidableEq e] [DecidableEq a] : DecidableEq (Except e a) := fun x y =>
  match x, y with
  | .error a1, .error a2 => decidable_of_iff (a1 = a2) (by simp)
  | .ok a1, .ok a2 => decidable_of_iff (a1 = a2) (by simp)
  | .error _, .ok _ => isFalse (by simp)
  | .ok _, .error _ => isFalse (by simp)

/-! ## Varint codec lemmas -/

theorem write_varint_ne_nil (v : Nat) : write_varint v ≠ [] := by
  rw [write_varint]
  split <;> simp

theorem write_varint_length_le (k : Nat) :
    ∀ v, v < 128 ^ (k + 1) → (write_varint v).length ≤ k + 1 := by
  induction k with
  | zero =>
    intro v h
    have hv : v < 128 := by simpa using h
    rw [write_varint, if_pos hv]
    simp
  | succ k ih =>
    intro v h
    rw [write_varint]
    split
    · simp
    · have hdiv : v / 128 < 128 ^ (k + 1) := by
        apply Nat.div_lt_of_lt_mul
        calc v < 128 ^ (k + 1 + 1) := h
          _ = 128 * 128 ^ (k + 1) := by ring
      simpa using Nat.succ_le_succ (ih _ hdiv)

theorem decodeVarintLoop_write (v : Nat) : ∀ (shift acc : Nat) (rest : List Nat),
    7 ∣ shift → shift ≤ 63 → v * 2 ^ shift < 2 ^ 70 →
    decodeVarintLoop (write_varint v ++ rest) shift acc
      = .ok ((acc + v * 2 ^ shift) % 2 ^ 64, rest) := by
  induction v using Nat.strong_induction_on with
  | _ v ih =>
    intro shift acc rest hdvd hle hlt
    rw [write_varint]
    split
    · next h =>
      simp [decodeVarintLoop, h]
    · next h =>
      push_neg at h
      have hb : ¬ (v % 128 + 128 < 128) := by omega
      have hshift : ¬ (shift = 63) := by
        intro hs
        subst hs
        have h1 : 128 * 2 ^ 63 ≤ v * 2 ^ 63 :=
          Nat.mul_le_mul_right _ h
        have h2 : (128 : Nat) * 2 ^ 63 = 2 ^ 70 := by norm_num
        omega
      simp only [List.cons_append, decodeVarintLoop, if_neg hb, if_neg hshift,
        List.append_eq]
      have h7 : (v % 128 + 128) % 128 = v % 128 := by omega
      rw [h7]
      have hrec := ih (v / 128) (by omega) (shift + 7)
        (acc + v % 128 * 2 ^ shift) rest
        (by omega) (by omega)
        (by
          have hq : v / 128 * 2 ^ (shift + 7) ≤ v * 2 ^ shift := by
            rw [pow_add]
            calc v / 128 * (2 ^ shift * 2 ^ 7)
                = 128 * (v / 128) * 2 ^ shift := by ring
              _ ≤ v * 2 ^ shift := by
                  apply Nat.mul_le_mul_right
                  omega
          omega)
      rw [hrec]
      have hv : 128 * (v / 128) + v % 128 = v := Nat.div_add_mod v 128
      have key : acc + v % 128 * 2 ^ shift + v / 128 * 2 ^ (shift + 7)
          = acc + v * 2 ^ shift := by
        conv_rhs => rw [← hv]
        rw [pow_add]
        ring
      rw [key]

theorem decode_write_varint (v : Nat) (h : v < 2 ^ 64) (rest : List Nat) :
    decode_varint (write_varint v ++ rest) = .ok (v, rest) := by
  have h3 : v * 2 ^ 0 < 2 ^ 70 := by simp only [pow_zero, mul_one]; omega
  have hx := decodeVarintLoop_write v 0 0 rest (by omega) (by omega) h3
  unfold decode_varint
  rw [hx]
  have hmod : (0 + v * 2 ^ 0) % 2 ^ 64 = v := by
    simp only [pow_zero, mul_one, Nat.zero_add]
    omega
  rw [hmod]

/-! ## ZigZag lemmas -/

theorem xor_all_ones : ∀ (n x : Nat), x < 2 ^ n → x ^^^ (2 ^ n - 1) = 2 ^ n - 1 - x := by
  intro n
  induction n with
  | zero =>
    intro x h
    have hx : x = 0 := by omega
    subst hx
    decide
  | succ n ih =>
    intro x h
    have h1 : 0 < 2 ^ n := Nat.two_pow_pos n
    have h2 : (2 : Nat) ^ (n + 1) = 2 * 2 ^ n := by rw [pow_succ, Nat.mul_comm]
    have hd2 : (2 ^ (n + 1) - 1) / 2 = 2 ^ n - 1 := by omega
    have hdiv : (x ^^^ (2 ^ (n + 1) - 1)) / 2 = (x / 2) ^^^ (2 ^ n - 1) := by
      rw [Nat.xor_div_two, hd2]
    have hih : (x / 2) ^^^ (2 ^ n - 1) = 2 ^ n - 1 - x / 2 := ih (x / 2) (by omega)
    have hiff := Nat.xor_mod_two_eq_one (a := x) (b := 2 ^ (n + 1) - 1)
    have hdm := Nat.div_add_mod (x ^^^ (2 ^ (n + 1) - 1)) 2
    omega

theorem toUInt64n_lt (i : Int) : toUInt64n i < 2 ^ 64 := by
  unfold toUInt64n
  omega

theorem encode_zigzag64_lt (i : Int) : encode_zigzag64 i < 2 ^ 64 :=
  Nat.xor_lt_two_pow (toUInt64n_lt _) (toUInt64n_lt _)

theorem encode_zigzag64_nonneg (n : Int) (h0 : 0 ≤ n) (h1 : n < 2 ^ 63) :
    encode_zigzag64 n = 2 * n.toNat := by
  unfold encode_zigzag64 toUInt64n
  have hfd : Int.fdiv n (2 ^ 63) = 0 := by
    rw [Int.fdiv_eq_ediv _ (by positivity)]
    omega
  rw [hfd]
  have e1 : ((n * 2) % (2 : Int) ^ 64).toNat = 2 * n.toNat := by omega
  have e2 : (((0 : Int)) % (2 : Int) ^ 64).toNat = 0 := by omega
  rw [e1, e2, Nat.xor_zero]

theorem encode_zigzag64_neg (n : Int) (h0 : -2 ^ 63 ≤ n) (h1 : n < 0) :
    encode_zigzag64 n = 2 * (-n).toNat - 1 := by
  unfold encode_zigzag64 toUInt64n
  have hfd : Int.fdiv n (2 ^ 63) = -1 := by
    rw [Int.fdiv_eq_ediv _ (by positivity)]
    omega
  rw [hfd]
  have e1 : ((n * 2) % (2 : Int) ^ 64).toNat = 2 ^ 64 - 2 * (-n).toNat := by omega
  have e2 : (((-1 : Int)) % (2 : Int) ^ 64).toNat = 2 ^ 64 - 1 := by omega
  rw [e1, e2]
  have hx := xor_all_ones 64 (2 ^ 64 - 2 * (-n).toNat) (by omega)
  rw [hx]
  omega

theorem decode_zigzag64_even (u : Nat) (h : u < 2 ^ 64) (he : u % 2 = 0) :
    decode_zigzag64 u = (u / 2 : Nat) := by
  unfold decode_zigzag64 toInt64
  have h1 : u &&& 1 = 0 := by rw [Nat.and_one_is_mod]; omega
  rw [h1]
  have h2 : ((2 : Nat) ^ 64 - 0) % 2 ^ 64 = 0 := by omega
  rw [h2, Nat.xor_zero]
  have h3 : u / 2 < 2 ^ 63 := by omega
  rw [if_pos h3]

theorem decode_zigzag64_odd (u : Nat) (h : u < 2 ^ 64) (ho : u % 2 = 1) :
    decode_zigzag64 u = -(u / 2 : Nat) - 1 := by
  unfold decode_zigzag64 toInt64
  have h1 : u &&& 1 = 1 := by rw [Nat.and_one_is_mod]; omega
  rw [h1]
  have h2 : ((2 : Nat) ^ 64 - 1) % 2 ^ 64 = 2 ^ 64 - 1 := by omega
  rw [h2]
  have hx := xor_all_ones 64 (u / 2) (by omega)
  rw [hx]
  have h3 : ¬ (2 ^ 64 - 1 - u / 2 < 2 ^ 63) := by omega
  rw [if_neg h3]
  omega

theorem decode_encode_zigzag (i : Int) (h0 : -2 ^ 63 ≤ i) (h1 : i < 2 ^ 63) :
    decode_zigzag64 (encode_zigzag64 i) = i := by
  rcases le_or_lt 0 i with hpos | hneg
  · rw [encode_zigzag64_nonneg i hpos h1]
    rw [decode_zigzag64_even _ (by omega) (by omega)]
    omega
  · rw [encode_zigzag64_neg i h0 hneg]
    rw [decode_zigzag64_odd _ (by omega) (by omega)]
    omega


theorem reserve_bytes_eq : reserve_bytes = 5 := rfl

theorem commit_submessage_eq (P p : List Nat) (rp : Nat)
    (hn : (write_varint (p.length % 2 ^ 32)).length ≤ 5) :
    commit_submessage ⟨P ++ (List.replicate 5 0 ++ p), rp, P.length + 5⟩
      = ⟨P ++ (write_varint (p.length % 2 ^ 32) ++ p), rp, 0⟩ := by
  unfold commit_submessage
  simp only [reserve_bytes_eq]
  have e1 : (P ++ (List.replicate 5 0 ++ p)).length - (P.length + 5) = p.length := by
    simp only [List.length_append, List.length_replicate]
    omega
  have e2 : P.length + 5 - 5 = P.length := by omega
  rw [e1, e2]
  set v := write_varint (p.length % 2 ^ 32) with hv
  have e3 : List.take P.length (P ++ (List.replicate 5 0 ++ p)) = P :=
    List.take_left' rfl
  have e4 : List.drop (P.length + v.length) (P ++ (List.replicate 5 0 ++ p))
      = List.replicate (5 - v.length) 0 ++ p := by
    rw [List.drop_append v.length, List.drop_append_eq_append_drop,
      List.drop_replicate, List.length_replicate]
    have h0 : v.length - 5 = 0 := by omega
    rw [h0, List.drop_zero]
  rw [e3, e4]
  have e5 : List.take (P.length + v.length)
      (P ++ v ++ (List.replicate (5 - v.length) 0 ++ p)) = P ++ v :=
    List.take_left' (by simp)
  have e6 : List.drop (P.length + 5)
      (P ++ v ++ (List.replicate (5 - v.length) 0 ++ p)) = p := by
    rw [← List.append_assoc]
    exact List.drop_left' (by simp; omega)
  rw [e5, e6, List.append_assoc]

theorem add_field_bytes_ne_nil (tag wt : Nat) : add_field_bytes tag wt ≠ [] :=
  write_varint_ne_nil _

theorem open_append_close (w : PbfWriter) (tag : Nat) (p : List Nat)
    (hroll : w.data.length ≠ size_is_known) :
    close_submessage (append_bytes (open_submessage w tag 0) p)
      = if p = [] then ⟨w.data, w.data.length, 0⟩
        else ⟨w.data ++ add_field_bytes tag 2 ++ write_varint (p.length % 2 ^ 32) ++ p,
              w.data.length, 0⟩ := by
  have hhdr := add_field_bytes_ne_nil tag 2
  have hopen : open_submessage w tag 0
      = ⟨w.data ++ add_field_bytes tag 2 ++ List.replicate 5 0, w.data.length,
         (w.data ++ add_field_bytes tag 2 ++ List.replicate 5 0).length⟩ := by
    unfold open_submessage
    simp [reserve_bytes_eq]
  rw [hopen]
  unfold append_bytes close_submessage
  dsimp only
  have hpos : ¬ ((w.data ++ add_field_bytes tag 2 ++ List.replicate 5 0).length = 0
      ∨ w.data.length = size_is_known) := by
    push_neg
    constructor
    · simp only [List.length_append, List.length_replicate]
      omega
    · exact hroll
  rw [if_neg hpos]
  by_cases hp : p = []
  · subst hp
    rw [if_pos (by simp), if_pos rfl]
    unfold rollback_submessage resize_to
    dsimp only
    have ht : List.take w.data.length
        (w.data ++ add_field_bytes tag 2 ++ List.replicate 5 0 ++ []) = w.data := by
      simp only [List.append_nil, List.append_assoc]
      exact List.take_left' rfl
    have hr : w.data.length
        - (w.data ++ add_field_bytes tag 2 ++ List.replicate 5 0 ++ []).length = 0 := by
      simp only [List.append_nil, List.length_append, List.length_replicate]
      omega
    rw [ht, hr]
    simp
  · have hplen : p.length ≠ 0 := fun h => hp (List.eq_nil_of_length_eq_zero h)
    rw [if_neg (by simp only [List.length_append, List.length_replicate]; omega), if_neg hp]
    have hshape : w.data ++ add_field_bytes tag 2 ++ List.replicate 5 0 ++ p
        = (w.data ++ add_field_bytes tag 2) ++ (List.replicate 5 0 ++ p) := by
      simp [List.append_assoc]
    have hlen : (w.data ++ add_field_bytes tag 2 ++ List.replicate 5 0).length
        = (w.data ++ add_field_bytes tag 2).length + 5 := by
      simp only [List.length_append, List.length_replicate]
    rw [hshape, hlen]
    have hn : (write_varint (p.length % 2 ^ 32)).length ≤ 5 := by
      have := write_varint_length_le 4 (p.length % 2 ^ 32) (by omega)
      omega
    rw [commit_submessage_eq _ _ _ hn]
    simp [List.append_assoc]

/-- C2 counterexample: on an empty buffer, open_submessage with tag 1 and
unknown size appends the header byte 10 and exactly 5 zero bytes, not the
10 zero bytes the claim states. -/
theorem C2_counterexample :
    (open_submessage ⟨[], 0, 0⟩ 1 0).data = [10, 0, 0, 0, 0, 0] ∧
    (open_submessage ⟨[], 0, 0⟩ 1 0).data
      ≠ add_field_bytes 1 2 ++ List.replicate 10 0 := by
  have h : add_field_bytes 1 2 = [10] := by
    unfold add_field_bytes
    rw [write_varint]
    decide
  have h2 : open_submessage ⟨[], 0, 0⟩ 1 0
      = ⟨[] ++ add_field_bytes 1 2 ++ List.replicate 5 0, 0, 6⟩ := by
    unfold open_submessage
    simp [reserve_bytes_eq, h]
  rw [h2, h]
  constructor
  · rfl
  · decide

/-- C2 amended: open_submessage with unknown size appends the field header
(tag shifted left 3, ORed with 2) and then exactly 5 zero bytes, recording
the pre-header buffer size as the rollback anchor and the post-placeholder
buffer size as the data anchor. -/
theorem C2_open_submessage_amended (w : PbfWriter) (tag : Nat) :
    open_submessage w tag 0
      = ⟨w.data ++ add_field_bytes tag 2 ++ List.replicate 5 0, w.data.length,
         w.data.length + (add_field_bytes tag 2).length + 5⟩ := by
  unfold open_submessage
  simp only [reduceIte, reserve_bytes_eq, PbfWriter.mk.injEq, List.length_append,
    List.length_replicate]

/-- C5: opening a submessage with unknown size and closing it with no
payload bytes appended leaves the buffer byte-identical to its pre-open
state. -/
theorem C5_rollback (w : PbfWriter) (tag : Nat)
    (hroll : w.data.length ≠ size_is_known) :
    (close_submessage (open_submessage w tag 0)).data = w.data := by
  have h0 : append_bytes (open_submessage w tag 0) [] = open_submessage w tag 0 := by
    simp [append_bytes]
  rw [← h0, open_append_close w tag [] hroll]
  simp

theorem C5_witness : (close_submessage (open_submessage ⟨[], 0, 0⟩ 1 0)).data = [] :=
  C5_rollback ⟨[], 0, 0⟩ 1 (by decide)

/-- C6: opening a submessage with unknown size, appending a non-empty
payload and closing produces the field header, the minimal varint of the
payload length, and the payload, with the surplus placeholder bytes
removed. -/
theorem C6_commit (w : PbfWriter) (tag : Nat) (p : List Nat) (hp : p ≠ [])
    (hlen : p.length < 2 ^ 32) (hroll : w.data.length ≠ size_is_known) :
    (close_submessage (append_bytes (open_submessage w tag 0) p)).data
      = w.data ++ add_field_bytes tag 2 ++ write_varint p.length ++ p := by
  rw [open_append_close w tag p hroll, if_neg hp]
  rw [Nat.mod_eq_of_lt hlen]

theorem C6_witness :
    ([7] : List Nat) ≠ [] ∧
    (close_submessage (append_bytes (open_submessage ⟨[], 0, 0⟩ 1 0) [7])).data
      = [] ++ add_field_bytes 1 2 ++ write_varint 1 ++ [7] :=
  ⟨by decide, C6_commit ⟨[], 0, 0⟩ 1 [7] (by decide) (by decide) (by decide)⟩

/-- C7: for every tag and payload, the known-size path produces the same
buffer bytes as the unknown-size path. -/
theorem C7_known_unknown_equal (w : PbfWriter) (tag : Nat) (p : List Nat)
    (hroll : w.data.length ≠ size_is_known) :
    (knownPath w tag p).data = (unknownPath w tag p).data := by
  by_cases hp : p = []
  · subst hp
    rfl
  · have hplen : p.length ≠ 0 := fun h => hp (List.eq_nil_of_length_eq_zero h)
    unfold knownPath
    have hopen : open_submessage w tag p.length
        = ⟨w.data ++ add_field_bytes tag 2 ++ write_varint (p.length % 2 ^ 32),
           size_is_known,
           (w.data ++ add_field_bytes tag 2 ++ write_varint (p.length % 2 ^ 32)).length⟩ := by
      unfold open_submessage
      rw [if_neg hplen]
    rw [hopen]
    unfold append_bytes close_submessage
    rw [if_pos (Or.inr rfl)]
    unfold unknownPath
    rw [open_append_close w tag p hroll, if_neg hp]

theorem C7_witness :
    (knownPath ⟨[], 0, 0⟩ 1 [7]).data = (unknownPath ⟨[], 0, 0⟩ 1 [7]).data :=
  C7_known_unknown_equal ⟨[], 0, 0⟩ 1 [7] (by decide)

/-- C9: adding a packed field from an empty iterator range appends nothing
at all, on both the growing (submessage) strategy and the fixed-length
strategy. -/
theorem C9_packed_empty (w : PbfWriter) (tag width : Nat) (enc : Nat → List Nat) :
    add_packed_growing w tag enc [] = w ∧ add_packed_fixed w tag width enc [] = w := by
  constructor <;> rfl

/-- C10: the size parameter value 0 means size unknown: open_submessage
takes the placeholder path exactly when size is 0, and the known-size path
(rollback disabled via the sentinel) exactly when size is non-zero. -/
theorem C10_size_zero_unknown (w : PbfWriter) (tag size : Nat)
    (hroll : w.data.length ≠ size_is_known) :
    ((open_submessage w tag size).rollback_pos = size_is_known ↔ size ≠ 0) ∧
    (size = 0 → open_submessage w tag size
        = ⟨w.data ++ add_field_bytes tag 2 ++ List.replicate 5 0, w.data.length,
           (w.data ++ add_field_bytes tag 2 ++ List.replicate 5 0).length⟩) ∧
    (size ≠ 0 → open_submessage w tag size
        = ⟨w.data ++ add_field_bytes tag 2 ++ write_varint (size % 2 ^ 32),
           size_is_known,
           (w.data ++ add_field_bytes tag 2 ++ write_varint (size % 2 ^ 32)).length⟩) := by
  by_cases hs : size = 0
  · subst hs
    unfold open_submessage
    simp [reserve_bytes_eq, hroll]
  · unfold open_submessage
    rw [if_neg hs]
    simp [hs]

theorem C10_witness :
    (open_submessage ⟨[], 0, 0⟩ 1 3).rollback_pos = size_is_known :=
  ((C10_size_zero_unknown ⟨[], 0, 0⟩ 1 3 (by decide)).1).mpr (by decide)

theorem decodeVarintLoop_error (bytes : List Nat) : ∀ shift acc e,
    decodeVarintLoop bytes shift acc = .error e →
    e = .endOfBuffer ∨ e = .varintTooLong := by
  induction bytes with
  | nil =>
    intro shift acc e h
    simp only [decodeVarintLoop, Except.error.injEq] at h
    exact Or.inl h.symm
  | cons b rest ih =>
    intro shift acc e h
    simp only [decodeVarintLoop] at h
    split at h
    · simp at h
    · split at h
      · simp only [Except.error.injEq] at h
        exact Or.inr h.symm
      · exact ih _ _ _ h

theorem decode_varint_error (bytes : List Nat) (e : PbfError)
    (h : decode_varint bytes = .error e) :
    e = .endOfBuffer ∨ e = .varintTooLong :=
  decodeVarintLoop_error bytes 0 0 e h

/-- C3 counterexample: the two bytes 128, 0 are a multi-byte varint that
encodes the value 0, yet get_bool consumes only the first byte and returns
true, not the value-based false the claim states. -/
theorem C3_counterexample :
    decode_varint [128, 0] = .ok (0, []) ∧
    get_bool ⟨[128, 0], 0, 1⟩ = (.ok true, ⟨[0], 0, 1⟩) ∧
    (get_bool ⟨[128, 0], 0, 1⟩).1 ≠ .ok false := by
  refine ⟨by decide, by decide, by decide⟩

/-- C3 amended: get_bool consumes exactly one byte and returns false iff
that first payload byte is zero; a multi-byte varint is decided by its
first byte alone (which has its high bit set, hence is non-zero), not by
the encoded value. -/
theorem C3_get_bool_amended (b : Nat) (rest : List Nat) (wt tg : Nat) :
    get_bool ⟨b :: rest, wt, tg⟩ = (.ok (b != 0), ⟨rest, wt, tg⟩) := rfl

/-- C4: next returns false on an exhausted buffer leaving the reader
unchanged; otherwise it decodes the header varint, sets the tag to the
header shifted right by 3 (as pbf_tag_type) and the wire type to the low 3
bits, throwing unknown_wire_type exactly for wire types 3, 4, 6, 7 and
returning true for 0, 1, 2, 5. -/
theorem C4_next_spec (r : PbfReader) :
    (r.data = [] → next r = (.ok false, r)) ∧
    (∀ e, r.data ≠ [] → decode_varint r.data = .error e → next r = (.error e, r)) ∧
    (∀ v rest, decode_varint r.data = .ok (v, rest) →
      next r = if v &&& 7 = 0 ∨ v &&& 7 = 1 ∨ v &&& 7 = 2 ∨ v &&& 7 = 5
        then (.ok true, ⟨rest, v &&& 7, (v >>> 3) % 2 ^ 32⟩)
        else (.error .unknownWireType, ⟨rest, v &&& 7, (v >>> 3) % 2 ^ 32⟩)) ∧
    ((next r).1 = .error .unknownWireType ↔
      ∃ v rest, decode_varint r.data = .ok (v, rest)
        ∧ (v &&& 7 = 3 ∨ v &&& 7 = 4 ∨ v &&& 7 = 6 ∨ v &&& 7 = 7)) := by
  refine ⟨?_, ?_, ?_, ?_⟩
  · intro h
    unfold next
    rw [if_pos h]
  · intro e hne hd
    unfold next
    rw [if_neg hne, hd]
  · intro v rest hd
    have hne : r.data ≠ [] := by
      intro h
      rw [h] at hd
      simp [decode_varint, decodeVarintLoop] at hd
    unfold next
    rw [if_neg hne, hd]
  · constructor
    · intro h
      unfold next at h
      by_cases hne : r.data = []
      · rw [if_pos hne] at h
        simp at h
      · rw [if_neg hne] at h
        cases hd : decode_varint r.data with
        | error e =>
          rw [hd] at h
          simp only at h
          rcases decode_varint_error _ _ hd with h1 | h1 <;> simp [h1] at h
        | ok vr =>
          obtain ⟨v, rest⟩ := vr
          rw [hd] at h
          simp only at h
          have h8 : v &&& 7 ≤ 7 := Nat.and_le_right
          by_cases hc : v &&& 7 = 0 ∨ v &&& 7 = 1 ∨ v &&& 7 = 2 ∨ v &&& 7 = 5
          · rw [if_pos hc] at h
            simp at h
          · exact ⟨v, rest, rfl, by omega⟩
    · rintro ⟨v, rest, hd, hw⟩
      have hne : r.data ≠ [] := by
        intro h
        rw [h] at hd
        simp [decode_varint, decodeVarintLoop] at hd
      unfold next
      rw [if_neg hne, hd]
      have hc : ¬ (v &&& 7 = 0 ∨ v &&& 7 = 1 ∨ v &&& 7 = 2 ∨ v &&& 7 = 5) := by omega
      simp only [if_neg hc]

theorem C4_witness :
    next ⟨[8], 99, 0⟩ = (.ok true, ⟨[], 0, 1⟩) ∧
    next ⟨[11], 99, 0⟩ = (.error .unknownWireType, ⟨[], 3, 1⟩) := by
  constructor
  · have h := (C4_next_spec ⟨[8], 99, 0⟩).2.2.1 8 [] (by decide)
    rw [h]
    decide
  · have h := (C4_next_spec ⟨[11], 99, 0⟩).2.2.1 11 [] (by decide)
    rw [h]
    decide

/-- C1 counterexample: a length-delimited field whose length varint (value
5) decodes but whose payload is truncated: get_view fails with
end_of_buffer yet the reader is changed, its cursor having advanced past
the length varint. -/
theorem C1_counterexample :
    (get_view ⟨[5, 0], 2, 1⟩).1 = .error .endOfBuffer ∧
    (get_view ⟨[5, 0], 2, 1⟩).2 ≠ ⟨[5, 0], 2, 1⟩ := by
  constructor
  · decide
  · decide

/-- C1 amended: scalar reads (varint, zigzag, bool, fixed) that fail leave
the reader unchanged; a failing next leaves the reader unchanged except
when it throws unknown_wire_type, in which case the cursor is past the
header and tag and wire type are set from it; a failing get_view or skip
leaves the reader unchanged except when the payload of a length-delimited
field is truncated, in which case the cursor is past the length varint. -/
theorem C1_strong_guarantee_amended (r : PbfReader) :
    (∀ e s, get_varint64 r = (.error e, s) → s = r) ∧
    (∀ e s, get_svarint r = (.error e, s) → s = r) ∧
    (∀ e s, get_bool r = (.error e, s) → s = r) ∧
    (∀ width e s, get_fixed width r = (.error e, s) → s = r) ∧
    (∀ e s, next r = (.error e, s) →
      (s = r ∨ ∃ v rest, decode_varint r.data = .ok (v, rest)
        ∧ e = .unknownWireType ∧ s = ⟨rest, v &&& 7, (v >>> 3) % 2 ^ 32⟩)) ∧
    (∀ e s, get_view r = (.error e, s) →
      (s = r ∨ ∃ v rest, decode_varint r.data = .ok (v, rest)
        ∧ e = .endOfBuffer ∧ s = ⟨rest, r.wire, r.tag⟩)) ∧
    (∀ e s, skip r = (.error e, s) →
      (s = r ∨ (r.wire = 2 ∧ ∃ v rest, decode_varint r.data = .ok (v, rest)
        ∧ e = .endOfBuffer ∧ s = ⟨rest, r.wire, r.tag⟩))) := by
  refine ⟨?_, ?_, ?_, ?_, ?_, ?_, ?_⟩
  · intro e s h
    unfold get_varint64 at h
    split at h <;> simp_all
  · intro e s h
    unfold get_svarint at h
    split at h <;> simp_all
  · intro e s h
    unfold get_bool at h
    split at h <;> simp_all
  · intro width e s h
    unfold get_fixed at h
    split at h <;> simp_all
  · intro e s h
    unfold next at h
    split at h
    · simp_all
    · split at h
      · simp_all
      · rename_i v rest heq
        dsimp only at h
        split at h
        · simp_all
        · injection h with h1 h2
          injection h1 with h1
          right
          exact ⟨v, rest, heq, h1.symm, h2.symm⟩
  · intro e s h
    unfold get_view at h
    split at h
    · simp_all
    · rename_i v rest heq
      dsimp only at h
      split at h
      · injection h with h1 h2
        injection h1 with h1
        right
        exact ⟨v, rest, heq, h1.symm, h2.symm⟩
      · simp_all
  · intro e s h
    unfold skip at h
    split at h
    · split at h <;> simp_all
    · split at h
      · unfold skip_bytes at h
        split at h <;> simp_all
      · split at h
        · rename_i hw0 hw1 hw2
          split at h
          · simp_all
          · rename_i v rest heq
            unfold skip_bytes at h
            split at h
            · injection h with h1 h2
              injection h1 with h1
              right
              exact ⟨hw2, v, rest, heq, h1.symm, h2.symm⟩
            · simp_all
        · split at h
          · unfold skip_bytes at h
            split at h <;> simp_all
          · simp_all

theorem C1_witness :
    ((⟨[], 99, 0⟩ : PbfReader) = ⟨[], 99, 0⟩) ∧
    ((⟨[0], 2, 1⟩ : PbfReader) = ⟨[5, 0], 2, 1⟩ ∨
      ∃ v rest, decode_varint [5, 0] = .ok (v, rest)
        ∧ PbfError.endOfBuffer = .endOfBuffer
        ∧ (⟨[0], 2, 1⟩ : PbfReader) = ⟨rest, 2, 1⟩) :=
  ⟨(C1_strong_guarantee_amended ⟨[], 99, 0⟩).1 .endOfBuffer ⟨[], 99, 0⟩ (by decide),
   (C1_strong_guarantee_amended ⟨[5, 0], 2, 1⟩).2.2.2.2.2.1 .endOfBuffer ⟨[0], 2, 1⟩
     (by decide)⟩

/-- C8: zigzag encoding is a bijection on 64-bit signed integers
(decode_zigzag64 after encode_zigzag64 is the identity), every sint64
value written through the writer zigzag-varint path is recovered exactly
by the reader zigzag path, and values in the int32 range survive the
int32 truncation performed by the sint32 reader. -/
theorem C8_zigzag_roundtrip (i : Int) (h0 : -2 ^ 63 ≤ i) (h1 : i < 2 ^ 63) :
    decode_zigzag64 (encode_zigzag64 i) = i ∧
    (∀ rest wt tg, get_svarint ⟨write_varint (encode_zigzag64 i) ++ rest, wt, tg⟩
        = (.ok i, ⟨rest, wt, tg⟩)) ∧
    (-2 ^ 31 ≤ i → i < 2 ^ 31 → toInt32 (decode_zigzag64 (encode_zigzag64 i)) = i) := by
  have hb := decode_encode_zigzag i h0 h1
  refine ⟨hb, ?_, ?_⟩
  · intro rest wt tg
    have hd := decode_write_varint (encode_zigzag64 i) (encode_zigzag64_lt i) rest
    unfold get_svarint
    dsimp only
    rw [hd]
    dsimp only
    rw [hb]
  · intro h2 h3
    rw [hb]
    unfold toInt32
    split <;> omega

theorem C8_witness :
    decode_zigzag64 (encode_zigzag64 (-1)) = -1 ∧
    get_svarint ⟨write_varint (encode_zigzag64 (-1)) ++ [], 0, 7⟩
      = (.ok (-1), ⟨[], 0, 7⟩) :=
  ⟨(C8_zigzag_roundtrip (-1) (by norm_num) (by norm_num)).1,
   (C8_zigzag_roundtrip (-1) (by norm_num) (by norm_num)).2.1 [] 0 7⟩

end Protozero
